import Mathlib

/-
Shallow embedding of the History undo/redo framework (History.h and its
implementation file).  The C++ core is a `HistoryContext` holding a vector of
`History*` records with an integer `m_PresentHistoryIdx` cursor, a global lock
`History::s_Lock`, per-record memento maps (`std::map<std::string, std::any>`),
and scoped push/pop controllers.

Modelling decisions (each definition is translated from the named source
function):
* Machine `int` indices become `Int` (the cursor can go negative, as in
  `AbortPush`).
* A `History*` slot on the stack is `Option History`: `none` is the null
  pointer that `std::vector<History*>(1)` puts in the sentinel slot.
* C++ undefined behaviour (indexing a vector out of range, `pop_back` on an
  empty vector, dereferencing a null record, the non-terminating `PrePush`
  loop) is modelled by an `Option` result, `none` marking an execution the
  source does not define.
* The parent-chain walks `IsUndoing`/`IsRedoing` inspect only the boolean
  flags of the context and its ancestors; the ancestors are passed as a chain
  `List (Bool × Bool)` of `(m_IsUndoing, m_IsRedoing)` pairs, ordered from the
  closest ancestor outward.
* A record's do/undo closure is host code; the claims only need the closure to
  observe the cursor and the flags at invocation time, so closures are
  modelled as pure probe functions `Int → Bool → Bool → Bool` receiving
  `(m_PresentHistoryIdx, m_IsUndoing, m_IsRedoing)` of the invoking context at
  the moment of the virtual `Redo()`/`Undo()` call, looked up by record id.
* `m_OnStackChanged` is always callable in the source (default is a no-op
  lambda); operations here return the list of arguments passed to it, so
  "the observer fires once" is "the list has one element".  The bound-or-
  default state of the observer slot is `Option Nat` (`none` = default).
* The `std::mutex` only serialises calls; the model is sequential.
-/

/-- Values storable in a record's memento map.  The source uses
`std::any`; the dynamic type tag is what `Load`'s `std::any_cast` checks. -/
inductive HVal where
  | vInt (n : Int)
  | vStr (s : String)
  | vSet (l : List Int)
deriving DecidableEq, Repr

/-- Dynamic type tags of `HVal`, standing for the C++ types a caller may
instantiate `History::Load<T>` at. -/
inductive Tag where
  | tInt
  | tStr
  | tSet
deriving DecidableEq, Repr

/-- The runtime type tag carried by a stored `std::any` value. -/
def tagOf : HVal → Tag
  | .vInt _ => .tInt
  | .vStr _ => .tStr
  | .vSet _ => .tSet

/-- The character sequence of the literal `"_Undo"` searched for by
`History::Load` (`id.find("_Undo")`). -/
def undoPat : List Char := ['_', 'U', 'n', 'd', 'o']

/-- `std::string::find` on character lists: index of the first occurrence of
`p` as a contiguous substring, `none` for `npos`. -/
def findSubA (p : List Char) : List Char → Option Nat
  | [] => if p.isEmpty then some 0 else none
  | a :: t => if p.isPrefixOf (a :: t) then some 0 else (findSubA p t).map (· + 1)

/-- Key canonicalization performed by `History::Load` (History.h lines
182-186): `id.erase(it)` erases from the first occurrence of `"_Undo"` to the
end of the string. -/
def canonicalKey (key : String) : String :=
  match findSubA undoPat key.data with
  | none => key
  | some i => String.mk (key.data.take i)

/-- `m_Data[key] = value` on the association-list model of the
`std::map<std::string, std::any>`: overwrite or insert. -/
def mapInsert (k : String) (v : HVal) (m : List (String × HVal)) :
    List (String × HVal) :=
  (k, v) :: m.filter (fun p => p.1 != k)

/-- Ancestor chain of `(m_IsUndoing, m_IsRedoing)` flag pairs, closest
ancestor first, as walked by `HistoryContext::IsUndoing`/`IsRedoing`. -/
abbrev Chain := List (Bool × Bool)

/-- The `IsUndoing` walk over an ancestor chain. -/
def chainIsUndoing (l : Chain) : Bool := l.any (fun p => p.1)

/-- The `IsRedoing` walk over an ancestor chain. -/
def chainIsRedoing (l : Chain) : Bool := l.any (fun p => p.2)

/-- `IsUndoingOrRedoing` over an ancestor chain. -/
def chainIsUndoingOrRedoing (l : Chain) : Bool :=
  chainIsUndoing l || chainIsRedoing l

/-- One record on the history stack (`struct History`): label, id and memento
map.  Its sub-context appears in the model as the flag chain passed to the
operations that consult it, and its do/undo closures as the probe table
entries under `rid`. -/
structure History where
  label : String
  rid : Nat
  data : List (String × HVal)
deriving DecidableEq, Repr

/-- The per-context state of `struct HistoryContext`: `m_HistoryStack`
(slots are nullable record pointers), `m_PresentHistoryIdx`, the two flags and
the observer slot (`none` = the default no-op lambda). -/
structure HistoryContext where
  stack : List (Option History)
  present : Int
  isUndoing : Bool
  isRedoing : Bool
  obs : Option Nat
deriving DecidableEq, Repr

/-- A freshly constructed context: `m_HistoryStack = std::vector<History*>(1)`
(one null sentinel slot), cursor 0, flags clear, default observer. -/
def freshCtx : HistoryContext :=
  { stack := [none], present := 0, isUndoing := false, isRedoing := false,
    obs := none }

/-- `HistoryContext::IsUndoing`: own flag or any ancestor's. -/
def ctxIsUndoing (c : HistoryContext) (anc : Chain) : Bool :=
  c.isUndoing || chainIsUndoing anc

/-- `HistoryContext::IsRedoing`: own flag or any ancestor's. -/
def ctxIsRedoing (c : HistoryContext) (anc : Chain) : Bool :=
  c.isRedoing || chainIsRedoing anc

/-- `HistoryContext::IsUndoingOrRedoing`. -/
def ctxIsUndoingOrRedoing (c : HistoryContext) (anc : Chain) : Bool :=
  ctxIsUndoing c anc || ctxIsRedoing c anc

/-- A record body probe: what a do/undo closure observes at invocation,
namely the invoking context's `(m_PresentHistoryIdx, m_IsUndoing,
m_IsRedoing)`, returning the closure's boolean result. -/
abbrev ProbeFn := Int → Bool → Bool → Bool

/-- Table of record bodies, indexed by record id. -/
abbrev BodyTbl := Nat → ProbeFn

/-- `HistoryContext::Present`: null when the gate is locked, else
`m_HistoryStack[m_PresentHistoryIdx]` (a negative or out-of-range index is
undefined behaviour in the source; here it yields `none`, as does the null
sentinel slot itself). -/
def HistoryContext.Present (lock : Bool) (c : HistoryContext) :
    Option History :=
  if lock then none
  else if c.present < 0 then none
  else (c.stack.get? c.present.toNat).join

/-- `HistoryContext::Push` (including the inlined `PrePush`): no-op under the
lock or during undo/redo; otherwise increment the cursor, pop records until
the stack size equals the new cursor, then append the new record.  `none`
models the undefined executions (cursor below -1, or the `PrePush` loop
popping past an empty vector). -/
def HistoryContext.Push (lock : Bool) (anc : Chain) (c : HistoryContext)
    (r : History) : Option HistoryContext :=
  if lock then some c
  else if ctxIsUndoingOrRedoing c anc then some c
  else if c.present + 1 < 0 then none
  else if (c.stack.length : Int) < c.present + 1 then none
  else some { c with present := c.present + 1, stack := c.stack.take (c.present + 1).toNat ++ [some r] }

/-- `HistoryContext::AbortPush`: no-op under the lock or during undo/redo;
otherwise decrement the cursor and `pop_back` (undefined on an empty
vector). -/
def HistoryContext.AbortPush (lock : Bool) (anc : Chain) (c : HistoryContext) :
    Option HistoryContext :=
  if lock then some c
  else if ctxIsUndoingOrRedoing c anc then some c
  else if c.stack.isEmpty then none
  else some { c with present := c.present - 1, stack := c.stack.dropLast }

/-- `HistoryContext::Undo`: returns `(result, new context, observer calls)`.
The source sets `m_IsUndoing`, invokes `m_HistoryStack[m_PresentHistoryIdx]->
Undo()`, decrements the cursor, clears the flag, then fires
`m_OnStackChanged(m_PresentHistoryIdx)`.  The body therefore observes the
still-undecremented cursor. -/
def HistoryContext.Undo (lock : Bool) (tbl : BodyTbl) (c : HistoryContext) :
    Option (Bool × HistoryContext × List Int) :=
  if lock then some (false, c, [])
  else if c.present = 0 then some (false, c, [])
  else if c.present < 0 then none
  else
    match c.stack.get? c.present.toNat with
    | none => none
    | some none => none
    | some (some r) =>
      let res := tbl r.rid c.present true c.isRedoing
      some (res, { c with present := c.present - 1, isUndoing := false },
        [c.present - 1])

/-- `HistoryContext::Redo`: the source invokes
`m_HistoryStack[++m_PresentHistoryIdx]->Redo()`, so the cursor is incremented
BEFORE the body runs; the flag is cleared and the observer fired with the new
cursor afterwards. -/
def HistoryContext.Redo (lock : Bool) (tbl : BodyTbl) (c : HistoryContext) :
    Option (Bool × HistoryContext × List Int) :=
  if lock then some (false, c, [])
  else if c.present = (c.stack.length : Int) - 1 then some (false, c, [])
  else if c.present + 1 < 0 then none
  else
    match c.stack.get? (c.present + 1).toNat with
    | none => none
    | some none => none
    | some (some r) =>
      let res := tbl r.rid (c.present + 1) c.isUndoing true
      some (res, { c with present := c.present + 1, isRedoing := false },
        [c.present + 1])

/-- `HistoryContext::Clear`: reset the cursor to 0, the stack to a single
null sentinel slot, and fire `m_OnStackChanged(0)`; no-op under the lock. -/
def HistoryContext.Clear (lock : Bool) (c : HistoryContext) :
    HistoryContext × List Int :=
  if lock then (c, [])
  else ({ c with present := 0, stack := [none] }, [0])

/-- `HistoryContext::BindOnStackChanged`: no-op under the lock, otherwise
install the observer. -/
def HistoryContext.BindOnStackChanged (lock : Bool) (c : HistoryContext)
    (f : Nat) : HistoryContext :=
  if lock then c else { c with obs := some f }

/-- `HistoryContext::UnbindOnStackChanged`: unconditionally reset the
observer slot to the default no-op lambda (the source has no lock check
here). -/
def HistoryContext.UnbindOnStackChanged (c : HistoryContext) :
    HistoryContext :=
  { c with obs := none }

/-- `History::Save`: fails under the lock or while the record's sub-context
(whose parent is the containing context) is undoing or redoing; otherwise
stores `m_Data[key] = value`.  `subChain` is the flag chain of the record's
sub-context: its own flags first, then the containing context's, then the
ancestors'. -/
def History.Save (lock : Bool) (subChain : Chain) (m : List (String × HVal))
    (k : String) (v : HVal) : Bool × List (String × HVal) :=
  if lock then (false, m)
  else if chainIsUndoingOrRedoing subChain then (false, m)
  else (true, mapInsert k v m)

/-- Outcome of `History::Load`: a boolean return with the output parameter
written only on success, or an escaped `std::bad_any_cast` exception. -/
inductive LoadOut where
  | ret (b : Bool) (out : Option HVal)
  | thrown
deriving DecidableEq, Repr

/-- `History::Load`: fails under the lock or when the record's sub-context is
NOT undoing/redoing; canonicalizes the key; fails when the key is absent;
otherwise performs `output = std::any_cast<T>(m_Data[id])`, which THROWS
`std::bad_any_cast` when the stored dynamic type differs from `T`. -/
def History.Load (lock : Bool) (subChain : Chain) (m : List (String × HVal))
    (key : String) (want : Tag) : LoadOut :=
  if lock then .ret false none
  else if !(chainIsUndoingOrRedoing subChain) then .ret false none
  else
    match List.lookup (canonicalKey key) m with
    | none => .ret false none
    | some v => if tagOf v = want then .ret true (some v) else .thrown

/-- The release step of `~HistoryPushController` as it affects the context
`c` that becomes active after ascending (the parent of the controlled
sub-context).  `activeFlag` is the controller's `active` member,
`subUndoFlag` the sub-context's own `m_IsUndoing` (the `IsUndoing()` check
runs on the sub-context before ascending), `hasParent` whether `c` itself has
a parent, `anc` the flag chain of the ancestors of `c`.  Under redo with room
the cursor advances; otherwise, when not redoing, the observer fires. -/
def PushControllerRelease (lock activeFlag subUndoFlag hasParent : Bool)
    (anc : Chain) (c : HistoryContext) : HistoryContext × List Int :=
  if lock then (c, [])
  else if !activeFlag then (c, [])
  else if subUndoFlag || ctxIsUndoing c anc then (c, [])
  else if hasParent && ctxIsRedoing c anc
      && decide (c.present < (c.stack.length : Int) - 1) then
    ({ c with present := c.present + 1 }, [])
  else if !(ctxIsRedoing c anc) then (c, [c.present])
  else (c, [])

/-- The release step of `~HistoryPopController` as it affects the ascended-to
context `c`: when `c` has a parent and its cursor exceeds 1, retreat the
cursor. -/
def PopControllerRelease (lock hasParent : Bool) (c : HistoryContext) :
    HistoryContext :=
  if lock then c
  else if hasParent && decide (c.present > 1) then
    { c with present := c.present - 1 }
  else c

/-- The cursor-range invariant of the spec: `0 ≤ present ≤ |stack| - 1`. -/
def CursorInv (c : HistoryContext) : Prop :=
  0 ≤ c.present ∧ c.present ≤ (c.stack.length : Int) - 1

/-- Boolean version of the cursor-range invariant. -/
def CursorInvB (c : HistoryContext) : Bool :=
  decide (0 ≤ c.present) && decide (c.present ≤ (c.stack.length : Int) - 1)

/-- The public operations of a context together with the scoped controller
release steps. -/
inductive COp where
  | push (r : History)
  | abortPush
  | undo
  | redo
  | clear
  | pushRelease (activeFlag subUndoFlag hasParent : Bool)
  | popRelease (hasParent : Bool)
deriving DecidableEq, Repr

/-- State transition of a single public operation, discarding return values
and observer calls. -/
def applyCOp (lock : Bool) (anc : Chain) (tbl : BodyTbl) (op : COp)
    (c : HistoryContext) : Option HistoryContext :=
  match op with
  | .push r => HistoryContext.Push lock anc c r
  | .abortPush => HistoryContext.AbortPush lock anc c
  | .undo => (HistoryContext.Undo lock tbl c).map (fun x => x.2.1)
  | .redo => (HistoryContext.Redo lock tbl c).map (fun x => x.2.1)
  | .clear => some (HistoryContext.Clear lock c).1
  | .pushRelease a s hp => some (PushControllerRelease lock a s hp anc c).1
  | .popRelease hp => some (PopControllerRelease lock hp c)

/-- The operations named by the gate-idempotence property, acting on a
context together with one record's memento map. -/
inductive SOp where
  | push (r : History)
  | abortPush
  | undo
  | redo
  | clear
  | save (k : String) (v : HVal)
deriving DecidableEq, Repr

/-- One step of `SOp` on `(context, memento map)`. -/
def applySOp (lock : Bool) (anc subChain : Chain) (tbl : BodyTbl) (op : SOp)
    (st : HistoryContext × List (String × HVal)) :
    Option (HistoryContext × List (String × HVal)) :=
  match op with
  | .push r => (HistoryContext.Push lock anc st.1 r).map (fun c => (c, st.2))
  | .abortPush =>
    (HistoryContext.AbortPush lock anc st.1).map (fun c => (c, st.2))
  | .undo => (HistoryContext.Undo lock tbl st.1).map (fun x => (x.2.1, st.2))
  | .redo => (HistoryContext.Redo lock tbl st.1).map (fun x => (x.2.1, st.2))
  | .clear => some ((HistoryContext.Clear lock st.1).1, st.2)
  | .save k v => some (st.1, (History.Save lock subChain st.2 k v).2)

/-- A sequence of `SOp` steps. -/
def applySeq (lock : Bool) (anc subChain : Chain) (tbl : BodyTbl) :
    List SOp → HistoryContext × List (String × HVal) →
    Option (HistoryContext × List (String × HVal))
  | [], st => some st
  | op :: ops, st =>
    (applySOp lock anc subChain tbl op st).bind (applySeq lock anc subChain tbl ops)

/-- Concrete record used by witnesses and counterexamples. -/
def recA : History := { label := "A", rid := 1, data := [] }

/-- Second concrete record. -/
def recB : History := { label := "B", rid := 2, data := [] }

/-- A context holding one real record with the cursor on the sentinel:
the state right after pushing `recA` and undoing it, where a redo is
available. -/
def ctxRedoReady : HistoryContext :=
  { stack := [none, some recA], present := 0, isUndoing := false,
    isRedoing := false, obs := none }

/-- A context holding one real record with the cursor on it: the state right
after pushing `recA`. -/
def ctxPushedA : HistoryContext :=
  { stack := [none, some recA], present := 1, isUndoing := false,
    isRedoing := false, obs := none }

/-- A context holding two real records with the cursor on the first. -/
def ctxTwo : HistoryContext :=
  { stack := [none, some recA, some recB], present := 1, isUndoing := false,
    isRedoing := false, obs := none }

/-- A context whose own `m_IsUndoing` flag is set. -/
def ctxUndoingFlag : HistoryContext := { freshCtx with isUndoing := true }

/-- Probe body asking "is the cursor still at 0 when I run?". -/
def probeZero : BodyTbl := fun _ p _ _ => decide (p = 0)

/-- Probe body asking "is the cursor already at 1 when I run?". -/
def probeOne : BodyTbl := fun _ p _ _ => decide (p = 1)

/-- Body table whose closures always succeed. -/
def tblTrue : BodyTbl := fun _ _ _ _ => true

/-- Unfolding of `List.isPrefixOf` on two cons cells. -/
theorem isPrefixOf_cons_cons (a b : Char) (as bs : List Char) :
    List.isPrefixOf (a :: as) (b :: bs) = (a == b && List.isPrefixOf as bs) := rfl

/-- If a pattern is a prefix of `s ++ t` and fits inside `s`, it is a prefix
of `s`. -/
theorem isPrefixOf_of_append (p : List Char) :
    ∀ (s t : List Char), p.length ≤ s.length →
      p.isPrefixOf (s ++ t) = true → p.isPrefixOf s = true := by
  induction p with
  | nil => intro s t _ _; simp [List.isPrefixOf]
  | cons a as ih =>
    intro s t hlen hp
    cases s with
    | nil => simp at hlen
    | cons b bs =>
      rw [List.cons_append, isPrefixOf_cons_cons] at hp
      rw [isPrefixOf_cons_cons]
      simp only [Bool.and_eq_true] at hp
      exact Bool.and_eq_true_iff.mpr ⟨hp.1, ih bs t (by simpa using hlen) hp.2⟩

/-- `"_Undo"` has no nontrivial self-overlap: it is not a prefix of
`a :: t ++ "_Undo"` when `t` is shorter than four characters. -/
theorem undoPat_not_prefix_short (a : Char) (t : List Char) (h : t.length ≤ 3) :
    undoPat.isPrefixOf (a :: (t ++ undoPat)) = false := by
  match t with
  | [] => simp [undoPat, List.isPrefixOf]
  | [b] => simp [undoPat, List.isPrefixOf]
  | [b, c] => simp [undoPat, List.isPrefixOf]
  | [b, c, d] => simp [undoPat, List.isPrefixOf]
  | _ :: _ :: _ :: _ :: _ :: _ => simp at h

/-- In a key that does not contain `"_Undo"`, appending `"_Undo"` puts the
first occurrence exactly at the end of the original key. -/
theorem findSubA_append_undoPat (K : List Char)
    (h : findSubA undoPat K = none) :
    findSubA undoPat (K ++ undoPat) = some K.length := by
  induction K with
  | nil => decide
  | cons a t ih =>
    simp only [findSubA] at h
    split at h
    · exact absurd h (by simp)
    · rename_i hpre
      have ht : findSubA undoPat t = none := by
        cases hh : findSubA undoPat t
        · rfl
        · rw [hh] at h; simp at h
      have hguard : undoPat.isPrefixOf (a :: (t ++ undoPat)) = false := by
        by_cases hl : t.length ≤ 3
        · exact undoPat_not_prefix_short a t hl
        · cases hg : undoPat.isPrefixOf (a :: (t ++ undoPat))
          · rfl
          · have hfit : undoPat.length ≤ (a :: t).length := by
              simp [undoPat]; omega
            have : undoPat.isPrefixOf (a :: t) = true :=
              isPrefixOf_of_append undoPat (a :: t) undoPat hfit
                (by simpa using hg)
            exact absurd this hpre
      rw [List.cons_append, findSubA, hguard]
      simp only [Bool.false_eq_true, if_false, ih ht, Option.map_some',
        List.length_cons]

/-- Key canonicalization round-trip: when `K` does not contain `"_Undo"`,
`canonicalKey (K ++ "_Undo") = K`. -/
theorem canonicalKey_append (K : String) (h : findSubA undoPat K.data = none) :
    canonicalKey (K ++ "_Undo") = K := by
  have hdata : (K ++ "_Undo").data = K.data ++ undoPat := by
    cases K with
    | mk l => rfl
  unfold canonicalKey
  rw [hdata, findSubA_append_undoPat K.data h]
  dsimp only
  rw [List.take_left]

/-- Lookup after overwrite on the memento-map model. -/
theorem lookup_mapInsert (k : String) (v : HVal) (m : List (String × HVal)) :
    List.lookup k (mapInsert k v m) = some v := by
  simp [mapInsert, List.lookup]

/-- `Push` preserves the cursor-range invariant. -/
theorem Push_cursorInv (lock : Bool) (anc : Chain) (c c2 : HistoryContext)
    (r : History) (hc : CursorInv c)
    (h : HistoryContext.Push lock anc c r = some c2) : CursorInv c2 := by
  obtain ⟨hlo, hhi⟩ := hc
  unfold HistoryContext.Push at h
  split at h
  · cases h; exact ⟨hlo, hhi⟩
  · split at h
    · cases h; exact ⟨hlo, hhi⟩
    · split at h
      · cases h
      · split at h
        · cases h
        · cases h
          rename_i hneg hlen
          simp only [CursorInv, List.length_append, List.length_take,
            List.length_singleton]
          omega

/-- `AbortPush` preserves the cursor-range invariant provided the cursor is
at least 1 (a record exists to remove). -/
theorem AbortPush_cursorInv (lock : Bool) (anc : Chain) (c c2 : HistoryContext)
    (hc : CursorInv c) (h1 : 1 ≤ c.present)
    (h : HistoryContext.AbortPush lock anc c = some c2) : CursorInv c2 := by
  obtain ⟨hlo, hhi⟩ := hc
  unfold HistoryContext.AbortPush at h
  split at h
  · cases h; exact ⟨hlo, hhi⟩
  · split at h
    · cases h; exact ⟨hlo, hhi⟩
    · split at h
      · cases h
      · cases h
        rename_i hne
        have hlen : c.stack.length ≠ 0 := by
          simpa [List.isEmpty_iff_length_eq_zero] using hne
        simp only [CursorInv, List.length_dropLast]
        omega

/-- `Undo` preserves the cursor-range invariant. -/
theorem Undo_cursorInv (lock : Bool) (tbl : BodyTbl) (c : HistoryContext)
    (x : Bool × HistoryContext × List Int) (hc : CursorInv c)
    (h : HistoryContext.Undo lock tbl c = some x) : CursorInv x.2.1 := by
  obtain ⟨hlo, hhi⟩ := hc
  unfold HistoryContext.Undo at h
  split at h
  · cases h; exact ⟨hlo, hhi⟩
  · split at h
    · cases h; exact ⟨hlo, hhi⟩
    · split at h
      · cases h
      · split at h
        · cases h
        · cases h
        · cases h
          rename_i hne hneg _ _
          simp only [CursorInv]
          omega

/-- `Redo` preserves the cursor-range invariant. -/
theorem Redo_cursorInv (lock : Bool) (tbl : BodyTbl) (c : HistoryContext)
    (x : Bool × HistoryContext × List Int) (hc : CursorInv c)
    (h : HistoryContext.Redo lock tbl c = some x) : CursorInv x.2.1 := by
  obtain ⟨hlo, hhi⟩ := hc
  unfold HistoryContext.Redo at h
  split at h
  · cases h; exact ⟨hlo, hhi⟩
  · split at h
    · cases h; exact ⟨hlo, hhi⟩
    · split at h
      · cases h
      · split at h
        · cases h
        · cases h
        · cases h
          rename_i hne hneg _ _
          simp only [CursorInv]
          omega

/-- `Clear` establishes the cursor-range invariant outright (or keeps the
state unchanged under the lock). -/
theorem Clear_cursorInv (lock : Bool) (c : HistoryContext) (hc : CursorInv c) :
    CursorInv (HistoryContext.Clear lock c).1 := by
  unfold HistoryContext.Clear
  split
  · exact hc
  · simp [CursorInv]

/-- The push-controller release step preserves the cursor-range invariant. -/
theorem PushControllerRelease_cursorInv
    (lock activeFlag subUndoFlag hasParent : Bool) (anc : Chain)
    (c : HistoryContext) (hc : CursorInv c) :
    CursorInv (PushControllerRelease lock activeFlag subUndoFlag hasParent
      anc c).1 := by
  obtain ⟨hlo, hhi⟩ := hc
  unfold PushControllerRelease
  split
  · exact ⟨hlo, hhi⟩
  · split
    · exact ⟨hlo, hhi⟩
    · split
      · exact ⟨hlo, hhi⟩
      · split
        · rename_i hcond
          simp only [Bool.and_eq_true, decide_eq_true_eq] at hcond
          simp only [CursorInv]
          omega
        · split
          · exact ⟨hlo, hhi⟩
          · exact ⟨hlo, hhi⟩

/-- The pop-controller release step preserves the cursor-range invariant. -/
theorem PopControllerRelease_cursorInv (lock hasParent : Bool)
    (c : HistoryContext) (hc : CursorInv c) :
    CursorInv (PopControllerRelease lock hasParent c) := by
  obtain ⟨hlo, hhi⟩ := hc
  unfold PopControllerRelease
  split
  · exact ⟨hlo, hhi⟩
  · split
    · rename_i hcond
      simp only [Bool.and_eq_true, decide_eq_true_eq] at hcond
      simp only [CursorInv]
      omega
    · exact ⟨hlo, hhi⟩

/-- Claim C1, counterexample: in a freshly constructed context the cursor is
0 and `Present()` with the gate unlocked returns the null pointer stored in
the sentinel slot (`std::vector<History*>(1)` value-initializes to null), not
a non-null Record as the claim states. -/
theorem c1_counterexample :
    freshCtx.present = 0 ∧ HistoryContext.Present false freshCtx = none := by
  decide

/-- Claim C1 (amended): `present()` returns nil when the gate is locked and
`stack[present]` otherwise; at `present == 0` the sentinel slot holds a null
pointer, so the call returns nil rather than a non-null Record (whose do/undo
closures are trivially never invoked). -/
theorem c1_present_amended (c : HistoryContext) :
    HistoryContext.Present true c = none ∧
    (0 ≤ c.present →
      HistoryContext.Present false c = (c.stack.get? c.present.toNat).join) ∧
    (c.stack.get? 0 = some none → c.present = 0 →
      HistoryContext.Present false c = none) := by
  refine ⟨rfl, fun h => ?_, fun h0 hp => ?_⟩
  · simp [HistoryContext.Present, not_lt.mpr h]
  · unfold HistoryContext.Present
    rw [if_neg (by simp), if_neg (by simp [hp]), hp]
    rw [show ((0 : Int).toNat = 0) from rfl, h0]
    rfl

/-- Witness for C1's amended theorem at the fresh context. -/
theorem c1_witness :
    HistoryContext.Present true freshCtx = none ∧
    HistoryContext.Present false freshCtx = none :=
  ⟨(c1_present_amended freshCtx).1,
    (c1_present_amended freshCtx).2.2 (by decide) (by decide)⟩

/-- Claim C2 (code bug): loading the key `"k"` — present in the memento map
with a stored `int` — at the requested type `std::string`, with the gate
unlocked and the sub-context undoing, does not return false: the unchecked
`std::any_cast<T>(m_Data[id])` in `History::Load` throws `std::bad_any_cast`,
which escapes the function.  (The stored value and the output parameter are
untouched, but the claimed false return never happens.) -/
theorem c2_load_type_mismatch_thrown :
    History.Load false [(false, false), (true, false)] [("k", HVal.vInt 5)]
      "k" Tag.tStr = LoadOut.thrown := by
  decide

/-- Claim C3, counterexample: on a context with one redoable record and
cursor 0, a do-closure that asks "is the cursor still 0 while I run?"
returns false, and one that asks "is the cursor already 1?" returns true:
`Redo` runs `m_HistoryStack[++m_PresentHistoryIdx]->Redo()`, incrementing the
cursor BEFORE the body, not after it as the claim states. -/
theorem c3_counterexample :
    HistoryContext.Redo false probeZero ctxRedoReady =
      some (false, { ctxRedoReady with present := 1, isRedoing := false },
        [1]) ∧
    HistoryContext.Redo false probeOne ctxRedoReady =
      some (true, { ctxRedoReady with present := 1, isRedoing := false },
        [1]) := by
  decide

/-- Claim C3 (amended): `redo()` sets `isRedoing` and increments the cursor,
then invokes the do-closure — which therefore observes `present + 1` and the
flag set — and clears the flag afterwards; `undo()` invokes the undo-closure
with the cursor still at its pre-call value and decrements only after the
body returns, before clearing `isUndoing`.  Each fires the observer once with
the new cursor. -/
theorem c3_ordering_amended (tbl : BodyTbl) (c : HistoryContext)
    (ru rr : History) (h1 : 1 ≤ c.present)
    (h2 : c.present < (c.stack.length : Int) - 1)
    (hu : c.stack.get? c.present.toNat = some (some ru))
    (hr : c.stack.get? (c.present + 1).toNat = some (some rr)) :
    HistoryContext.Redo false tbl c =
      some (tbl rr.rid (c.present + 1) c.isUndoing true,
        { c with present := c.present + 1, isRedoing := false },
        [c.present + 1]) ∧
    HistoryContext.Undo false tbl c =
      some (tbl ru.rid c.present true c.isRedoing,
        { c with present := c.present - 1, isUndoing := false },
        [c.present - 1]) := by
  constructor
  · unfold HistoryContext.Redo
    rw [if_neg (by simp), if_neg (by omega), if_neg (by omega), hr]
  · unfold HistoryContext.Undo
    rw [if_neg (by simp), if_neg (by omega), if_neg (by omega), hu]

/-- Witness for C3's amended theorem on a two-record context. -/
theorem c3_witness :
    HistoryContext.Redo false tblTrue ctxTwo =
      some (true, { ctxTwo with present := 2, isRedoing := false }, [2]) ∧
    HistoryContext.Undo false tblTrue ctxTwo =
      some (true, { ctxTwo with present := 0, isUndoing := false }, [0]) :=
  c3_ordering_amended tblTrue ctxTwo recA recB (by decide) (by decide)
    (by decide) (by decide)

/-- Claim C4, counterexample: the fresh context satisfies the cursor
invariant, yet the public operation `AbortPush` (gate unlocked, no flags set)
drives its cursor to -1 and empties the stack, violating
`0 ≤ present ≤ |stack| - 1`. -/
theorem c4_counterexample :
    CursorInvB freshCtx = true ∧
    (HistoryContext.AbortPush false [] freshCtx).map CursorInvB =
      some false := by
  decide

/-- Claim C4 (amended): after push, undo, redo, clear and scoped controller
release the cursor invariant `0 ≤ present ≤ |stack| - 1` is preserved;
`abortPush` preserves it only under its intended precondition `present ≥ 1`
(immediately after a successful push, as in the abort protocol) — at
`present = 0` it violates the invariant. -/
theorem c4_cursor_inv_amended (lock : Bool) (anc : Chain) (tbl : BodyTbl)
    (op : COp) (c c2 : HistoryContext) (hc : CursorInv c)
    (hab : op = COp.abortPush → 1 ≤ c.present)
    (h : applyCOp lock anc tbl op c = some c2) : CursorInv c2 := by
  cases op with
  | push r => exact Push_cursorInv lock anc c c2 r hc h
  | abortPush => exact AbortPush_cursorInv lock anc c c2 hc (hab rfl) h
  | undo =>
    simp only [applyCOp, Option.map_eq_some'] at h
    obtain ⟨x, hx, hx2⟩ := h
    rw [← hx2]
    exact Undo_cursorInv lock tbl c x hc hx
  | redo =>
    simp only [applyCOp, Option.map_eq_some'] at h
    obtain ⟨x, hx, hx2⟩ := h
    rw [← hx2]
    exact Redo_cursorInv lock tbl c x hc hx
  | clear =>
    simp only [applyCOp, Option.some.injEq] at h
    rw [← h]
    exact Clear_cursorInv lock c hc
  | pushRelease a s hp =>
    simp only [applyCOp, Option.some.injEq] at h
    rw [← h]
    exact PushControllerRelease_cursorInv lock a s hp anc c hc
  | popRelease hp =>
    simp only [applyCOp, Option.some.injEq] at h
    rw [← h]
    exact PopControllerRelease_cursorInv lock hp c hc

/-- Witness for C4's amended theorem: an undo step on a one-record context
keeps the invariant. -/
theorem c4_witness :
    CursorInv { ctxPushedA with present := 0, isUndoing := false } :=
  c4_cursor_inv_amended false [] tblTrue COp.undo ctxPushedA
    { ctxPushedA with present := 0, isUndoing := false }
    (by constructor <;> decide) (fun hop => by cases hop) (by decide)

/-- Claim C5, counterexample: for the key `K = "a_Undo"` (which itself
contains `"_Undo"`), `Save(K, 7)` during the natural first execution followed
by `Load(K ++ "_Undo")` during replay does NOT retrieve the value:
`History::Load` erases from the FIRST occurrence of `"_Undo"` to the end of
the string (not just a trailing suffix), looks up `"a"`, finds nothing and
returns false. -/
theorem c5_counterexample :
    History.Load false [(false, false), (true, false)]
      (History.Save false [(false, false), (false, false)] [] "a_Undo"
        (HVal.vInt 7)).2
      ("a_Undo" ++ "_Undo") Tag.tInt = LoadOut.ret false none := by
  decide

/-- Claim C5 (amended): for every key `K` that does not contain `"_Undo"` as
a substring, `save(K, v)` on a record during its natural first execution
(gate unlocked, sub-context not undoing/redoing) followed by
`load(K ++ "_Undo", out)` on the same record during undo or redo retrieves
`v` and returns true: the lookup key is canonicalized by erasing from the
first occurrence of `"_Undo"` to the end, which for such `K` strips exactly
the appended suffix. -/
theorem c5_save_load_amended (K : String) (v : HVal)
    (m : List (String × HVal)) (chQ chR : Chain)
    (hK : findSubA undoPat K.data = none)
    (hQ : chainIsUndoingOrRedoing chQ = false)
    (hR : chainIsUndoingOrRedoing chR = true) :
    History.Load false chR (History.Save false chQ m K v).2 (K ++ "_Undo")
      (tagOf v) = LoadOut.ret true (some v) := by
  have hsave : (History.Save false chQ m K v).2 = mapInsert K v m := by
    simp [History.Save, hQ]
  rw [hsave]
  unfold History.Load
  rw [if_neg (by simp), if_neg (by simp [hR])]
  rw [canonicalKey_append K hK, lookup_mapInsert]
  simp

/-- Witness for C5's amended theorem with the showcase key `"hOldValue"`. -/
theorem c5_witness :
    History.Load false [(false, false), (true, false)]
      (History.Save false [(false, false), (false, false)] [] "hOldValue"
        (HVal.vInt 11)).2
      ("hOldValue" ++ "_Undo") Tag.tInt = LoadOut.ret true
        (some (HVal.vInt 11)) :=
  c5_save_load_amended "hOldValue" (HVal.vInt 11) []
    [(false, false), (false, false)] [(false, false), (true, false)]
    (by decide) (by decide) (by decide)

/-- Claim C6: while the context or any of its ancestors is undoing or
redoing, `Push` leaves the stack and cursor untouched (it is `void` in the
source, so "returns false" has no denotation for it) and `Save` — whose
guard walks the record's sub-context chain, which contains the containing
context and its ancestors — leaves the memento map unchanged and returns
false. -/
theorem c6_phase_guard (lock : Bool) (anc : Chain) (c : HistoryContext)
    (r : History) (subU subR : Bool) (m : List (String × HVal)) (k : String)
    (v : HVal) (h : ctxIsUndoingOrRedoing c anc = true) :
    HistoryContext.Push lock anc c r = some c ∧
    History.Save lock ((subU, subR) :: (c.isUndoing, c.isRedoing) :: anc)
      m k v = (false, m) := by
  have hchain : chainIsUndoingOrRedoing
      ((subU, subR) :: (c.isUndoing, c.isRedoing) :: anc) = true := by
    simp only [ctxIsUndoingOrRedoing, ctxIsUndoing, ctxIsRedoing] at h
    show ((subU || (c.isUndoing || chainIsUndoing anc))
      || (subR || (c.isRedoing || chainIsRedoing anc))) = true
    simp only [Bool.or_eq_true] at h ⊢
    tauto
  constructor
  · cases lock <;> simp [HistoryContext.Push, h]
  · cases lock <;> simp [History.Save, hchain]

/-- Witness for C6 on a context whose own `m_IsUndoing` flag is set. -/
theorem c6_witness :
    HistoryContext.Push false [] ctxUndoingFlag recA = some ctxUndoingFlag ∧
    History.Save false [(false, false), (true, false)] [] "k"
      (HVal.vInt 1) = (false, []) :=
  c6_phase_guard false [] ctxUndoingFlag recA false false [] "k"
    (HVal.vInt 1) (by decide)

/-- Claim C7: with the gate locked, no sequence of push, abortPush, undo,
redo, clear and save operations changes the context state or the memento
map at all — every operation short-circuits on `History::s_Lock`. -/
theorem c7_gate_locked (anc subChain : Chain) (tbl : BodyTbl)
    (ops : List SOp) (st : HistoryContext × List (String × HVal)) :
    applySeq true anc subChain tbl ops st = some st := by
  induction ops generalizing st with
  | nil => rfl
  | cons op ops ih =>
    have hstep : applySOp true anc subChain tbl op st = some st := by
      cases op <;>
        simp [applySOp, HistoryContext.Push, HistoryContext.AbortPush,
          HistoryContext.Undo, HistoryContext.Redo, HistoryContext.Clear,
          History.Save]
    rw [applySeq, hstep]
    exact ih st

/-- Claim C8: an undo followed by a successful push leaves the cursor at the
top of the stack: the push truncates every record strictly above the
pre-push cursor, appends the new record and increments the cursor, so
`present == |stack| - 1`. -/
theorem c8_redo_tail_truncation (anc : Chain) (tbl : BodyTbl)
    (c : HistoryContext) (ru r : History)
    (x : Bool × HistoryContext × List Int) (c2 : HistoryContext)
    (hc : CursorInv c) (h1 : 1 ≤ c.present)
    (hq : ctxIsUndoingOrRedoing c anc = false)
    (hu : c.stack.get? c.present.toNat = some (some ru))
    (hU : HistoryContext.Undo false tbl c = some x)
    (hP : HistoryContext.Push false anc x.2.1 r = some c2) :
    c2.present = (c2.stack.length : Int) - 1 ∧
    c2.present = x.2.1.present + 1 ∧
    c2.stack = c.stack.take c.present.toNat ++ [some r] := by
  obtain ⟨hlo, hhi⟩ := hc
  unfold HistoryContext.Undo at hU
  rw [if_neg (by simp), if_neg (by omega), if_neg (by omega), hu] at hU
  injection hU with hU2
  subst hU2
  have hflags : ctxIsUndoingOrRedoing
      { c with present := c.present - 1, isUndoing := false } anc = false := by
    show ((false || chainIsUndoing anc)
      || (c.isRedoing || chainIsRedoing anc)) = false
    simp only [ctxIsUndoingOrRedoing, ctxIsUndoing, ctxIsRedoing,
      Bool.or_eq_false_iff] at hq
    obtain ⟨⟨h3, h4⟩, h5⟩ := hq
    simp [h4, h5]
  unfold HistoryContext.Push at hP
  dsimp only at hP
  rw [if_neg (by simp), if_neg (by simp [hflags]), if_neg (by omega),
    if_neg (by omega)] at hP
  injection hP with hP2
  subst hP2
  dsimp only
  rw [show c.present - 1 + 1 = c.present from by omega]
  refine ⟨?_, by omega, rfl⟩
  simp only [List.length_append, List.length_take, List.length_singleton]
  omega

/-- Witness for C8 on the two-record context: undo then push `recB`. -/
theorem c8_witness :
    ({ stack := [none, some recB], present := 1, isUndoing := false,
        isRedoing := false, obs := none } : HistoryContext).present =
      ((([none, some recB] : List (Option History)).length : Int) - 1) ∧
    ({ stack := [none, some recB], present := 1, isUndoing := false,
        isRedoing := false, obs := none } : HistoryContext).present =
      ({ ctxTwo with present := 0, isUndoing := false } :
        HistoryContext).present + 1 ∧
    ({ stack := [none, some recB], present := 1, isUndoing := false,
        isRedoing := false, obs := none } : HistoryContext).stack =
      ctxTwo.stack.take ctxTwo.present.toNat ++ [some recB] :=
  c8_redo_tail_truncation [] tblTrue ctxTwo recA recB
    (true, { ctxTwo with present := 0, isUndoing := false }, [0])
    { stack := [none, some recB], present := 1, isUndoing := false,
      isRedoing := false, obs := none }
    (by constructor <;> decide) (by decide) (by decide) (by decide)
    (by decide) (by decide)

/-- Claim C9, counterexample: pushing a record on the fresh root context and
then running the abort protocol's first step — the explicit
`~HistoryPushController` call with `active == true`, gate unlocked, top level
(no parent), no undo/redo in progress — fires `m_OnStackChanged` once (with
the pre-abort cursor 1), although the claim says an aborted push fires no
notification.  (`AbortPush` itself contains no observer call.) -/
theorem c9_counterexample :
    HistoryContext.Push false [] freshCtx recA = some ctxPushedA ∧
    (PushControllerRelease false true false false [] ctxPushedA).2 = [1] := by
  decide

/-- Claim C9 (amended): `onStackChanged` fires exactly once per executed undo
(cursor not at 0), once per executed redo (cursor not at the top), once per
unlocked clear, and once per natural top-level push completion at the
controller release; the abort protocol's explicit controller release is that
same release and hence also fires once (with the pre-abort cursor), while
`AbortPush` itself never fires. -/
theorem c9_observer_amended (tbl : BodyTbl) (c : HistoryContext)
    (anc : Chain) :
    (∀ x, c.present ≠ 0 → HistoryContext.Undo false tbl c = some x →
      x.2.2 = [c.present - 1]) ∧
    (∀ x, HistoryContext.Redo false tbl c = some x →
      c.present ≠ (c.stack.length : Int) - 1 → x.2.2 = [c.present + 1]) ∧
    (HistoryContext.Clear false c).2 = [0] ∧
    (ctxIsUndoing c anc = false → ctxIsRedoing c anc = false →
      (PushControllerRelease false true false false anc c).2 =
        [c.present]) := by
  refine ⟨fun x h0 hx => ?_, fun x hx hne => ?_, rfl, fun hU hR => ?_⟩
  · unfold HistoryContext.Undo at hx
    rw [if_neg (by simp), if_neg h0] at hx
    split at hx
    · cases hx
    · split at hx
      · cases hx
      · cases hx
      · cases hx
        rfl
  · unfold HistoryContext.Redo at hx
    rw [if_neg (by simp), if_neg hne] at hx
    split at hx
    · cases hx
    · split at hx
      · cases hx
      · cases hx
      · cases hx
        rfl
  · simp [PushControllerRelease, hU, hR]

/-- Witness for C9's amended theorem: one undo notification and one
top-level completion notification on concrete contexts. -/
theorem c9_witness :
    ((true, { ctxPushedA with present := 0, isUndoing := false },
        [(0 : Int)]) : Bool × HistoryContext × List Int).2.2 =
      [ctxPushedA.present - 1] ∧
    (PushControllerRelease false true false false [] ctxTwo).2 =
      [ctxTwo.present] :=
  ⟨(c9_observer_amended tblTrue ctxPushedA []).1 _ (by decide) (by decide),
    (c9_observer_amended tblTrue ctxTwo []).2.2.2 (by decide) (by decide)⟩

/-- Claim C10: with the gate locked, `BindOnStackChanged` is a no-op (the
previous observer stays in place), while `UnbindOnStackChanged` — which has
no lock check in the source — resets the observer slot to the no-op default
regardless of the gate; unlocked binding installs the observer. -/
theorem c10_bind_unbind (c : HistoryContext) (f : Nat) :
    HistoryContext.BindOnStackChanged true c f = c ∧
    HistoryContext.UnbindOnStackChanged c = { c with obs := none } ∧
    HistoryContext.BindOnStackChanged false c f = { c with obs := some f } :=
  ⟨rfl, rfl, rfl⟩
